import Mathlib

/-!
Verification development for the my2sats CLI (`src/cli`).

The TypeScript sources are shallowly embedded: strings become `List Char`,
fallible operations become `Except`, and the external collaborators
(file store, HTTP upload transport, password prompt, the `nostr-tools`
nip19/nip49 codecs) become explicit parameters, as the spec's §6 interface
list prescribes.  All scanning code (`parseFrontmatter`,
`parseImageReferences`) is translated from the concrete regular expressions
in `src/cli/utils.ts`, spelling out the deterministic behaviour of the
JavaScript regex engine on those particular patterns.
-/

set_option autoImplicit false

namespace My2sats

/-- Strings are modelled as lists of characters. -/
abbrev Str := List Char

/-- Coerce a Lean string literal to the `List Char` model. -/
def s2l (s : String) : Str := s.data

deriving instance DecidableEq for Except

/-- The JavaScript whitespace class: the characters matched by `\s` in a
regular expression, which is also the set removed by `String.prototype.trim`. -/
def jsWs (c : Char) : Bool :=
  ([9, 10, 11, 12, 13, 32, 160, 0x1680, 0x2000, 0x2001, 0x2002, 0x2003,
    0x2004, 0x2005, 0x2006, 0x2007, 0x2008, 0x2009, 0x200a, 0x2028, 0x2029,
    0x202f, 0x205f, 0x3000, 0xfeff] : List Nat).contains c.toNat

/-- JavaScript `String.prototype.trim`: drop whitespace from both ends. -/
def trim (s : Str) : Str :=
  ((s.dropWhile jsWs).reverse.dropWhile jsWs).reverse

/-- JavaScript `value.startsWith(pre)`. -/
def startsWith (pre s : Str) : Bool := pre.isPrefixOf s

/-- Index of the first occurrence of `needle` in `s`
(JavaScript `String.prototype.indexOf` on a string argument). -/
def firstIdx (needle : Str) : Str → Option Nat
  | [] => if needle.isEmpty then some 0 else none
  | c :: rest =>
    if needle.isPrefixOf (c :: rest) then some 0
    else (firstIdx needle rest).map (· + 1)

/-- JavaScript `String.prototype.replace` with a plain string pattern:
replace only the first occurrence of `needle` by `repl`. -/
def replaceFirst (s needle repl : Str) : Str :=
  match firstIdx needle s with
  | none => s
  | some i => s.take i ++ repl ++ s.drop (i + needle.length)

/-- JavaScript `String.prototype.split` on a single-character separator. -/
def splitChar (sep : Char) : Str → List Str
  | [] => [[]]
  | c :: rest =>
    let r := splitChar sep rest
    if c = sep then [] :: r
    else
      match r with
      | [] => [[c]]
      | h :: t => (c :: h) :: t

/-- Index of the last occurrence of a character
(JavaScript `String.prototype.lastIndexOf`). -/
def lastIdxOf (c : Char) (s : Str) : Option Nat :=
  (s.reverse.findIdx? (· = c)).map (fun i => s.length - 1 - i)

/-- `getBasePath` from `src/cli/utils.ts`: the directory part of a file path,
`"."` when the path has no slash. -/
def getBasePath (filePath : Str) : Str :=
  match lastIdxOf '/' filePath with
  | some i => filePath.take i
  | none => ['.']

/-- A single or double quote character (the class `["']`). -/
def isQuote (c : Char) : Bool := c = '"' || c = '\''

/-- The quote stripping `value.replace(/^["']|["']$/g, "")` in
`parseFrontmatter`: remove one leading and one remaining trailing quote. -/
def stripQuotes (v : Str) : Str :=
  let v1 :=
    match v with
    | [] => ([] : Str)
    | c :: rest => if isQuote c then rest else v
  match v1.getLast? with
  | some c => if isQuote c then v1.dropLast else v1
  | none => v1

/-! ## Frontmatter (`parseFrontmatter` in `src/cli/utils.ts`) -/

/-- A frontmatter value as produced by the untyped JavaScript assignment in
`setFrontmatterField`: either a string or an array of strings. -/
inductive FmVal where
  | s (v : Str)
  | arr (vs : List Str)
deriving DecidableEq, Repr

/-- The `PostFrontmatter` record (`src/cli/types.ts`); every field optional. -/
structure PostFrontmatter where
  slug : Option FmVal := none
  title : Option FmVal := none
  author : Option FmVal := none
  excerpt : Option FmVal := none
  featured_image : Option FmVal := none
  tags : Option FmVal := none
deriving DecidableEq, Repr

/-- JavaScript truthiness of an optional frontmatter value:
`undefined` and the empty string are falsy, arrays are always truthy. -/
def truthy : Option FmVal → Bool
  | none => false
  | some (.s v) => !v.isEmpty
  | some (.arr _) => true

/-- Extract a string-valued field (the sources type-assert these fields to
`string`; an array value would crash the original at runtime). -/
def fmStr? : Option FmVal → Option Str
  | some (.s v) => some v
  | _ => none

/-- `setFrontmatterField` from `src/cli/utils.ts`: assign `value` to `key`
when `key` is one of the six valid frontmatter keys, else ignore. -/
def setFrontmatterField (fm : PostFrontmatter) (key : Str) (value : FmVal) :
    PostFrontmatter :=
  if key = s2l "slug" then { fm with slug := some value }
  else if key = s2l "title" then { fm with title := some value }
  else if key = s2l "author" then { fm with author := some value }
  else if key = s2l "excerpt" then { fm with excerpt := some value }
  else if key = s2l "featured_image" then { fm with featured_image := some value }
  else if key = s2l "tags" then { fm with tags := some value }
  else fm

/-- One iteration of the line loop in `parseFrontmatter`: skip lines without
a colon; otherwise split at the first colon, trim both sides, parse a
`[...]` value as an array of trimmed unquoted items, and set the field. -/
def parseFmLine (fm : PostFrontmatter) (line : Str) : PostFrontmatter :=
  match line.findIdx? (· = ':') with
  | none => fm
  | some i =>
    let key := trim (line.take i)
    let value := trim (line.drop (i + 1))
    if startsWith (s2l "[") value && value.getLast? = some ']' then
      let arrayContent := (value.drop 1).dropLast
      let items :=
        ((splitChar ',' arrayContent).map
          (fun it => stripQuotes (trim it))).filter (fun it => !it.isEmpty)
      setFrontmatterField fm key (.arr items)
    else
      setFrontmatterField fm key (.s (stripQuotes value))

/-- The match of `/^---\n([\s\S]*?)\n---\n([\s\S]*)$/` against `markdown`:
the input must begin with `---\n`, and the lazy first group ends at the
earliest later `\n---\n`.  Returns the two capture groups. -/
def fmMatch (markdown : Str) : Option (Str × Str) :=
  if startsWith (s2l "---\n") markdown then
    let r := markdown.drop 4
    match firstIdx (s2l "\n---\n") r with
    | some i => some (r.take i, r.drop (i + 5))
    | none => none
  else none

/-- `parseFrontmatter` from `src/cli/utils.ts`.  When the delimiter regex
does not match, or the captured frontmatter block is the empty string,
the whole original input is returned as content with no frontmatter;
otherwise the block's lines are folded into a `PostFrontmatter` and the
trimmed second capture group is the content. -/
def parseFrontmatter (markdown : Str) : PostFrontmatter × Str :=
  match fmMatch markdown with
  | none => ({}, markdown)
  | some (fmStr, content) =>
    if fmStr.isEmpty then ({}, markdown)
    else ((splitChar '\n' fmStr).foldl parseFmLine {}, trim content)

/-! ## Image references (`parseImageReferences` in `src/cli/utils.ts`) -/

/-- A located image reference (`src/cli/types.ts`): the full matched span
and the extracted path. -/
structure ImageReference where
  original : Str
  path : Str
deriving DecidableEq, Repr

/-- `isLocalPath` from `src/cli/utils.ts`: not an `http://` or `https://`
URL. -/
def isLocalPath (value : Str) : Bool :=
  !startsWith (s2l "http://") value && !startsWith (s2l "https://") value

/-- Attempt the markdown image pattern
`/!\[[^\]]*\]\(([^)\s]+)(?:\s+"[^"]*")?\)/` at the head of `s`.  The
pattern is deterministic: each quantified class excludes its follow
character, so the regex engine's greedy runs are exactly the maximal
`takeWhile` runs.  Returns the matched span, the captured path and the
rest of the input after the match. -/
def matchMdAt (s : Str) : Option (ImageReference × Str) :=
  match s with
  | '!' :: '[' :: r0 =>
    let alt := r0.takeWhile (· ≠ ']')
    (match r0.drop alt.length with
    | ']' :: '(' :: r2 =>
      let path := r2.takeWhile (fun c => c ≠ ')' && !jsWs c)
      if path.isEmpty then none
      else
        match r2.drop path.length with
        | ')' :: r4 =>
          some (⟨'!' :: '[' :: (alt ++ ']' :: '(' :: (path ++ [')'])), path⟩, r4)
        | c :: r4' =>
          if jsWs c then
            let ws := (c :: r4').takeWhile jsWs
            match (c :: r4').drop ws.length with
            | '"' :: r6 =>
              let title := r6.takeWhile (· ≠ '"')
              (match r6.drop title.length with
              | '"' :: ')' :: r8 =>
                some (⟨'!' :: '[' :: (alt ++ ']' :: '(' ::
                  (path ++ ws ++ '"' :: (title ++ ['"', ')']))), path⟩, r8)
              | _ => none)
            | _ => none
          else none
        | [] => none
    | _ => none)
  | _ => none

/-- Case-insensitive literal prefix test (`pat` given in lower case),
for the `/i` flag on the HTML image regex. -/
def ciPrefixOf : Str → Str → Bool
  | [], _ => true
  | _ :: _, [] => false
  | p :: ps, c :: cs => p = c.toLower && ciPrefixOf ps cs

/-- The tail `src=["']([^"']+)["'][^>]*\/?>` of the HTML image pattern,
matched at `t` (the position chosen for the `src` attribute).  Returns the
matched text through the closing `>`, the captured path, and the rest. -/
def matchSrcTail (t : Str) : Option (Str × Str × Str) :=
  if ciPrefixOf (s2l "src=") t then
    match t.drop 4 with
    | q1 :: t2 =>
      if isQuote q1 then
        let path := t2.takeWhile (fun c => !isQuote c)
        if path.isEmpty then none
        else
          match t2.drop path.length with
          | q2 :: t4 =>
            if isQuote q2 then
              let u := t4.takeWhile (· ≠ '>')
              (match t4.drop u.length with
              | '>' :: t6 =>
                some (t.take 4 ++ q1 :: (path ++ q2 :: (u ++ ['>'])), path, t6)
              | _ => none)
            else none
          | [] => none
      else none
    | [] => none
  else none

/-- Greedy backtracking of the `[^>]+` run in the HTML image pattern:
try the attribute-region length `k` from the maximum down to `1`,
taking the first position at which the `src=` tail matches. -/
def tryK (r : Str) : Nat → Option (Nat × Str × Str × Str)
  | 0 => none
  | k + 1 =>
    match matchSrcTail (r.drop (k + 1)) with
    | some (tailSpan, path, rest) => some (k + 1, tailSpan, path, rest)
    | none => tryK r k

/-- Attempt the HTML image pattern `/<img[^>]+src=["']([^"']+)["'][^>]*\/?>/i`
at the head of `s`.  The greedy `[^>]+` picks the last position of a
matching `src=` attribute inside the maximal `>`-free run after `<img`. -/
def matchHtmlAt (s : Str) : Option (ImageReference × Str) :=
  if ciPrefixOf (s2l "<img") s then
    let r := s.drop 4
    let kmax := (r.takeWhile (· ≠ '>')).length
    match tryK r kmax with
    | some (k, tailSpan, path, rest) =>
      some (⟨s.take 4 ++ r.take k ++ tailSpan, path⟩, rest)
    | none => none
  else none

/-- The `regex.exec` loop over `content` for the markdown pattern: find
the leftmost match, keep it when its path is local (the push in the
source is guarded by `isLocalPath`), and continue after the match.  The
fuel argument (instantiated with the input length, which every step
strictly decreases) makes the recursion structural. -/
def scanMdAux (localOnly : Bool) : Nat → Str → List ImageReference
  | 0, _ => []
  | _ + 1, [] => []
  | fuel + 1, c :: rest =>
    match matchMdAt (c :: rest) with
    | some (ref, after) =>
      if !localOnly || isLocalPath ref.path then
        ref :: scanMdAux localOnly fuel after
      else scanMdAux localOnly fuel after
    | none => scanMdAux localOnly fuel rest

/-- The `regex.exec` loop for the HTML pattern, as in `scanMdAux`. -/
def scanHtmlAux (localOnly : Bool) : Nat → Str → List ImageReference
  | 0, _ => []
  | _ + 1, [] => []
  | fuel + 1, c :: rest =>
    match matchHtmlAt (c :: rest) with
    | some (ref, after) =>
      if !localOnly || isLocalPath ref.path then
        ref :: scanHtmlAux localOnly fuel after
      else scanHtmlAux localOnly fuel after
    | none => scanHtmlAux localOnly fuel rest

/-- All markdown image matches with a local path. -/
def scanMd (s : Str) : List ImageReference := scanMdAux true s.length s

/-- All HTML image matches with a local path. -/
def scanHtml (s : Str) : List ImageReference := scanHtmlAux true s.length s

/-- All markdown image matches, local or remote. -/
def scanMdAll (s : Str) : List ImageReference := scanMdAux false s.length s

/-- All HTML image matches, local or remote. -/
def scanHtmlAll (s : Str) : List ImageReference := scanHtmlAux false s.length s

/-- `parseImageReferences` from `src/cli/utils.ts`: the local-path markdown
matches followed by the local-path HTML matches. -/
def parseImageReferences (content : Str) : List ImageReference :=
  scanMd content ++ scanHtml content

/-! ## Image validation and upload
(`validateImageFile`, `uploadImage` in `src/cli/api-client.ts`,
`processImages` in `src/cli/utils.ts`) -/

/-- The configuration values `processImages` reads
(`maxImageSize`, `allowedImageTypes` in `src/cli/config.ts`). -/
structure ImgConfig where
  maxImageSize : Nat
  allowedImageTypes : List Str
deriving DecidableEq

/-- The default configuration values from `src/cli/config.ts`. -/
def defaultImgConfig : ImgConfig where
  maxImageSize := 5 * 1024 * 1024
  allowedImageTypes :=
    [s2l "image/jpeg", s2l "image/png", s2l "image/webp", s2l "image/gif"]

/-- The file-store collaborator (`Bun.file`): existence, byte size and
declared MIME type per path. -/
structure FileStore where
  pathExists : Str → Bool
  size : Str → Nat
  mime : Str → Str

/-- Failures of the image pipeline: the three `ImageValidationError`
messages of `validateImageFile`, and `ApiError` from `uploadImage`. -/
inductive ImgErr where
  | notFound (fullPath : Str)
  | tooLarge (fullPath : Str) (size : Nat)
  | badType (fullPath : Str) (mime : Str)
  | apiError (status : Nat) (msg : Str)
deriving DecidableEq

/-- The upload transport collaborator: `uploadImage` posts the validated
file and yields the returned URL or an `ApiError`. -/
structure Uploader where
  upload : Str → Except ImgErr Str

/-- `validateImageFile` from `src/cli/api-client.ts`: resolve the path
against `basePath` unless absolute, then check existence, size bound and
MIME allow-list, in that order.  Returns the resolved full path (standing
for the validated file handle). -/
def validateImageFile (fs : FileStore) (cfg : ImgConfig)
    (filePath basePath : Str) : Except ImgErr Str :=
  let fullPath := if startsWith (s2l "/") filePath then filePath
    else basePath ++ '/' :: filePath
  if !fs.pathExists fullPath then .error (.notFound fullPath)
  else if fs.size fullPath > cfg.maxImageSize then
    .error (.tooLarge fullPath (fs.size fullPath))
  else if !cfg.allowedImageTypes.contains (fs.mime fullPath) then
    .error (.badType fullPath (fs.mime fullPath))
  else .ok fullPath

/-- One iteration of the upload loop in `processImages`: validate the
local path, then upload the validated file. -/
def uploadStep (fs : FileStore) (cfg : ImgConfig) (up : Uploader)
    (basePath p : Str) : Except ImgErr Str :=
  match validateImageFile fs cfg p basePath with
  | .error e => .error e
  | .ok fullPath => up.upload fullPath

/-- `pathsToUpload.set` on a fresh key: JavaScript `Map` keeps insertion
order, so the dedup map's key sequence is an append-if-absent list. -/
def addPath (acc : List Str) (p : Str) : List Str :=
  if acc.contains p then acc else acc ++ [p]

/-- The dedup key list of `processImages`: content reference paths in
discovery order, then the featured image when it is a truthy local path. -/
def collectPaths (refs : List ImageReference) (featuredImage : Option Str) :
    List Str :=
  let base := refs.foldl (fun acc r => addPath acc r.path) []
  match featuredImage with
  | some f => if !f.isEmpty && isLocalPath f then addPath base f else base
  | none => base

/-- The upload loop of `processImages`: one `validateImageFile` +
`uploadImage` per dedup key, strictly in order, aborting on the first
failure; on success the map associates each path with its URL. -/
def uploadAll (fs : FileStore) (cfg : ImgConfig) (up : Uploader)
    (basePath : Str) : List Str → Except ImgErr (List (Str × Str))
  | [] => .ok []
  | p :: rest =>
    match uploadStep fs cfg up basePath p with
    | .error e => .error e
    | .ok url =>
      match uploadAll fs cfg up basePath rest with
      | .error e => .error e
      | .ok m => .ok ((p, url) :: m)

/-- The first validation or upload error hit by the upload loop, if any. -/
def firstFailure (fs : FileStore) (cfg : ImgConfig) (up : Uploader)
    (basePath : Str) : List Str → Option ImgErr
  | [] => none
  | p :: rest =>
    match uploadStep fs cfg up basePath p with
    | .error e => some e
    | .ok _ => firstFailure fs cfg up basePath rest

/-- Number of occurrences of a path in a list (used to state the
"uploaded exactly once" property). -/
def countOcc (p : Str) (L : List Str) : Nat :=
  (L.filter (fun q => q = p)).length

/-- `pathsToUpload.get`: look up the uploaded URL for a path. -/
def lookupUrl (m : List (Str × Str)) (p : Str) : Option Str :=
  (m.find? (fun e => e.1 = p)).map (·.2)

/-- The substitution loop of `processImages`: for each reference in
discovery order whose path maps to a truthy URL, replace the first
occurrence of the original span by the span with its first path
occurrence replaced by the URL. -/
def rewriteContent (m : List (Str × Str)) (refs : List ImageReference)
    (content : Str) : Str :=
  refs.foldl
    (fun c r =>
      match lookupUrl m r.path with
      | some url =>
        if !url.isEmpty then
          replaceFirst c r.original (replaceFirst r.original r.path url)
        else c
      | none => c)
    content

/-- `processImages` from `src/cli/utils.ts`: collect the dedup key list
from the content references and the featured image; when it is empty
return the input unchanged; otherwise upload every key (a failure aborts
the whole call), then rewrite the content and resolve the featured-image
URL from the dedup map. -/
def processImages (fs : FileStore) (cfg : ImgConfig) (up : Uploader)
    (content : Str) (featuredImage : Option Str) (basePath : Str) :
    Except ImgErr (Str × Option Str) :=
  let imageRefs := parseImageReferences content
  let paths := collectPaths imageRefs featuredImage
  if paths.isEmpty then .ok (content, featuredImage)
  else
    match uploadAll fs cfg up basePath paths with
    | .error e => .error e
    | .ok m =>
      let processed := rewriteContent m imageRefs content
      let fUrl :=
        match featuredImage with
        | some f => if !f.isEmpty && isLocalPath f then lookupUrl m f
                    else featuredImage
        | none => none
      .ok (processed, fUrl)

/-! ## Secret-key handling (`src/cli/crypto.ts`) -/

/-- A hexadecimal digit (the class `[0-9a-fA-F]`). -/
def hexDigit (c : Char) : Bool :=
  ('0' ≤ c && c ≤ '9') || ('a' ≤ c && c ≤ 'f') || ('A' ≤ c && c ≤ 'F')

/-- The test `/^[0-9a-fA-F]{64}$/`. -/
def isHex64 (s : Str) : Bool := s.length == 64 && s.all hexDigit

/-- Numeric value of a hex digit. -/
def hexVal (c : Char) : Nat :=
  if c ≤ '9' then c.toNat - 48
  else if c ≤ 'F' then c.toNat - 55
  else c.toNat - 87

/-- `hexToBytes` (from `@noble/hashes`), on inputs already validated as
even-length hex: consecutive digit pairs become bytes. -/
def hexToBytes : Str → List Nat
  | a :: b :: rest => (16 * hexVal a + hexVal b) :: hexToBytes rest
  | _ => []

/-- The result of the external `nostr-tools/nip19` `decode`: a tag and a
byte payload. -/
structure Nip19Decoded where
  typ : Str
  data : List Nat
deriving DecidableEq

/-- The external nip19 codec collaborator.  `Except.error` models the
codec raising its own exception (a malformed bech32 string); such an
exception is a library error, never the CLI's `InvalidSecretKeyError`. -/
def Nip19Decode := Str → Except Str Nip19Decoded

/-- Failures of `parseSecretKey`: the CLI's `InvalidSecretKeyError`, or an
uncaught exception escaping the external nip19 codec. -/
inductive SecretKeyErr where
  | invalidSecretKey
  | nip19DecodeErr (msg : Str)
deriving DecidableEq

/-- `parseSecretKey` from `src/cli/crypto.ts`: trim the input; an
`nsec1`-prefixed value goes through the external nip19 codec (whose own
exceptions propagate uncaught) and must carry the `nsec` tag; anything
else must be exactly 64 hex characters and is decoded as hex. -/
def parseSecretKey (nip19 : Nip19Decode) (input : Str) :
    Except SecretKeyErr (List Nat) :=
  let trimmed := trim input
  if startsWith (s2l "nsec1") trimmed then
    match nip19 trimmed with
    | .error e => .error (.nip19DecodeErr e)
    | .ok d =>
      if d.typ ≠ s2l "nsec" then .error .invalidSecretKey
      else .ok d.data
  else if isHex64 trimmed then .ok (hexToBytes trimmed)
  else .error .invalidSecretKey

/-- The collaborators of `getSecretKey`: keyfile existence and text
(`Bun.file`), the interactive password prompt (`prompts`; `none` models a
cancelled prompt, whose `response.password` is `undefined`), and the
external `nostr-tools/nip49` `decrypt` (`none` models it throwing). -/
structure VaultEnv where
  fileExists : Bool
  fileText : Str
  promptResult : Option Str
  decryptResult : Str → Str → Option (List Nat)

/-- Failures of `getSecretKey` (`src/cli/errors.ts`). -/
inductive VaultErr where
  | keyfileNotFound (path : Str)
  | invalidKeyfile
  | aborted
  | decryptionFailed
deriving DecidableEq

/-- `getSecretKey` from `src/cli/crypto.ts`: missing keyfile, then the
`ncryptsec1` prefix check on the raw file text, then the password prompt
(a cancelled prompt or an empty password — both falsy — abort), and
finally nip49 decryption of the trimmed file text, with any decryption
exception wrapped as `DecryptionError`. -/
def getSecretKey (env : VaultEnv) (keyfilePath : Str) :
    Except VaultErr (List Nat) :=
  if !env.fileExists then .error (.keyfileNotFound keyfilePath)
  else
    let ncryptsec := env.fileText
    if !startsWith (s2l "ncryptsec1") ncryptsec then .error .invalidKeyfile
    else
      match env.promptResult with
      | none => .error .aborted
      | some pw =>
        if pw.isEmpty then .error .aborted
        else
          match env.decryptResult (trim ncryptsec) pw with
          | none => .error .decryptionFailed
          | some key => .ok key

/-! ## Post creation (`src/cli/commands/create-post.ts`) -/

/-- The `PostPayload` sent by `createPost`; string fields may carry the
frontmatter's untyped values. -/
structure PostPayload where
  slug : FmVal
  title : FmVal
  content : Str
  author : FmVal
  excerpt : Option FmVal
  featured_image : Option Str
  tags : Option FmVal
deriving DecidableEq

/-- Failures of the pure part of `createPost`. -/
inductive CreateErr where
  | validation (fields : List Str)
  | imgErr (e : ImgErr)
deriving DecidableEq

/-- The required-field check of `createPost`: the names of the required
frontmatter fields (`slug`, `title`, `author`) that are falsy, in the
order the source tests them. -/
def missingFields (fm : PostFrontmatter) : List Str :=
  (if truthy fm.slug then [] else [s2l "slug"]) ++
  (if truthy fm.title then [] else [s2l "title"]) ++
  (if truthy fm.author then [] else [s2l "author"])

/-- The pure pipeline of `createPost` (`src/cli/commands/create-post.ts`)
given the markdown file's path and text: parse the frontmatter, fail with
`ValidationError` listing all missing required fields, then run
`processImages` on the content and the frontmatter's featured image, and
assemble the payload with the processed content and featured-image URL.
(Key handling and the final HTTP POST are outside the payload assembly.) -/
def createPostPayload (fs : FileStore) (cfg : ImgConfig) (up : Uploader)
    (filePath markdown : Str) : Except CreateErr PostPayload :=
  let pf := parseFrontmatter markdown
  let fm := pf.1
  let content := pf.2
  let missing := missingFields fm
  if !missing.isEmpty then .error (.validation missing)
  else
    let basePath := getBasePath filePath
    match processImages fs cfg up content (fmStr? fm.featured_image)
        basePath with
    | .error e => .error (.imgErr e)
    | .ok r =>
      .ok { slug := (fm.slug).getD (.s [])
            title := (fm.title).getD (.s [])
            content := r.1
            author := (fm.author).getD (.s [])
            excerpt := fm.excerpt
            featured_image := r.2
            tags := fm.tags }

/-! ## Post update (`src/cli/commands/update-post.ts`) -/

/-- The options of the `update` command.  `file` carries the path and the
text of the markdown file when `--file` is given and the file exists (the
source reads it through the file store); the remaining fields are the CLI
override strings. -/
structure UpdatePostOptions where
  file : Option (Str × Str) := none
  title : Option Str := none
  content : Option Str := none
  excerpt : Option Str := none
  featuredImage : Option Str := none
  author : Option Str := none
  tags : Option Str := none
  newSlug : Option Str := none

/-- The `UpdatePayload` assembled by `updatePost`; fields that are never
assigned keep no key (here: `none`). -/
structure UpdatePayload where
  slug : Option FmVal := none
  title : Option FmVal := none
  content : Option Str := none
  excerpt : Option FmVal := none
  featured_image : Option Str := none
  author : Option FmVal := none
  tags : Option FmVal := none
deriving DecidableEq

/-- Failures of the pure part of `updatePost`. -/
inductive UpdateErr where
  | noUpdates
  | imgErr (e : ImgErr)
deriving DecidableEq

/-- A guarded CLI override `if (options.x) payload.x = options.x` onto an
untyped payload field: applied only when the option is a truthy string. -/
def ovr (opt : Option Str) (old : Option FmVal) : Option FmVal :=
  match opt with
  | some v => if !v.isEmpty then some (.s v) else old
  | none => old

/-- A guarded CLI override onto a string payload field. -/
def ovrS (opt old : Option Str) : Option Str :=
  match opt with
  | some v => if !v.isEmpty then some v else old
  | none => old

/-- A guarded copy `if (frontmatter.x) payload.x = frontmatter.x`. -/
def fmCopy (v : Option FmVal) : Option FmVal :=
  if truthy v then v else none

/-- The pure pipeline of `updatePost` (`src/cli/commands/update-post.ts`):
copy the truthy frontmatter fields of the optional input file into the
payload (body content and featured image are held aside), apply the
truthy CLI overrides, fail with the no-updates error when nothing was
assigned, then — when a file body or featured image is present — run
`processImages` and write its processed content and featured-image URL
into the payload.  (Key handling and the HTTP PUT are outside the payload
assembly.) -/
def updatePostPayload (fs : FileStore) (cfg : ImgConfig) (up : Uploader)
    (options : UpdatePostOptions) : Except UpdateErr UpdatePayload :=
  let stage1 :
      UpdatePayload × Str × Option Str × Option Str :=
    match options.file with
    | none => ({}, ['.'], none, none)
    | some (path, text) =>
      let pf := parseFrontmatter text
      let fm := pf.1
      let content := pf.2
      let p : UpdatePayload :=
        { slug := fmCopy fm.slug
          title := fmCopy fm.title
          author := fmCopy fm.author
          excerpt := fmCopy fm.excerpt
          tags := fmCopy fm.tags }
      let cff : Option Str := if !content.isEmpty then some content else none
      let fif : Option Str :=
        if truthy fm.featured_image then fmStr? fm.featured_image else none
      (p, getBasePath path, cff, fif)
  let p1 := stage1.1
  let basePath := stage1.2.1
  let contentFromFile := stage1.2.2.1
  let fifFile := stage1.2.2.2
  let p2 : UpdatePayload :=
    { slug := ovr options.newSlug p1.slug
      title := ovr options.title p1.title
      content := ovrS options.content p1.content
      excerpt := ovr options.excerpt p1.excerpt
      featured_image := p1.featured_image
      author := ovr options.author p1.author
      tags :=
        match options.tags with
        | some t =>
          if !t.isEmpty then some (.arr ((splitChar ',' t).map trim))
          else p1.tags
        | none => p1.tags }
  let featuredImageFromFile := ovrS options.featuredImage fifFile
  let payloadEmpty :=
    p2.slug.isNone && p2.title.isNone && p2.content.isNone &&
    p2.excerpt.isNone && p2.featured_image.isNone && p2.author.isNone &&
    p2.tags.isNone
  let hasContentOrImages :=
    contentFromFile.isSome || featuredImageFromFile.isSome
  if payloadEmpty && !hasContentOrImages then .error .noUpdates
  else
    if contentFromFile.isSome || featuredImageFromFile.isSome then
      match processImages fs cfg up (contentFromFile.getD [])
          featuredImageFromFile basePath with
      | .error e => .error (.imgErr e)
      | .ok r =>
        let p3 := if contentFromFile.isSome
          then { p2 with content := some r.1 } else p2
        let p4 := if featuredImageFromFile.isSome
          then { p3 with featured_image := r.2 } else p3
        .ok p4
    else .ok p2

/-! ## Concrete collaborator instances used by witnesses and
counterexamples -/

/-- A file store on which every path exists as a small PNG. -/
def fsAll : FileStore := ⟨fun _ => true, fun _ => 10, fun _ => s2l "image/png"⟩

/-- A file store with no files. -/
def fsMissing : FileStore := ⟨fun _ => false, fun _ => 0, fun _ => []⟩

/-- An upload transport returning a fixed CDN URL. -/
def upCdn : Uploader := ⟨fun _ => .ok (s2l "https://cdn/x.png")⟩

/-- A nip19 codec that raises on every input, as the external codec does
on a malformed bech32 string; its exception is its own, not the CLI's. -/
def nip19Reject : Nip19Decode := fun _ => .error (s2l "invalid bech32")

/-- A vault whose keyfile is fine but whose password prompt was
cancelled. -/
def vaultCancelled : VaultEnv :=
  ⟨true, s2l "ncryptsec1abc", none, fun _ _ => none⟩

/-- A vault whose password prompt returned the empty string. -/
def vaultEmptyPw : VaultEnv :=
  ⟨true, s2l "ncryptsec1abc", some [], fun _ _ => none⟩

/-! ## Shared lemmas -/

theorem scanMdAux_localOnly (fuel : Nat) :
    ∀ s, scanMdAux true fuel s =
      (scanMdAux false fuel s).filter (fun r => isLocalPath r.path) := by
  induction fuel with
  | zero => intro s; rfl
  | succ n ih =>
    intro s
    match s with
    | [] => rfl
    | c :: rest =>
      simp only [scanMdAux]
      cases h : matchMdAt (c :: rest) with
      | none => exact ih rest
      | some pr =>
        cases h2 : isLocalPath pr.1.path <;>
          simp [h2, ih, List.filter]

theorem scanHtmlAux_localOnly (fuel : Nat) :
    ∀ s, scanHtmlAux true fuel s =
      (scanHtmlAux false fuel s).filter (fun r => isLocalPath r.path) := by
  induction fuel with
  | zero => intro s; rfl
  | succ n ih =>
    intro s
    match s with
    | [] => rfl
    | c :: rest =>
      simp only [scanHtmlAux]
      cases h : matchHtmlAt (c :: rest) with
      | none => exact ih rest
      | some pr =>
        cases h2 : isLocalPath pr.1.path <;>
          simp [h2, ih, List.filter]

theorem parseImageReferences_eq_filter (c : Str) :
    parseImageReferences c =
      (scanMdAll c ++ scanHtmlAll c).filter (fun r => isLocalPath r.path) := by
  simp [parseImageReferences, scanMd, scanHtml, scanMdAll, scanHtmlAll,
    scanMdAux_localOnly, scanHtmlAux_localOnly, List.filter_append]

theorem mem_addPath {acc : List Str} {p q : Str} :
    p ∈ addPath acc q ↔ p ∈ acc ∨ p = q := by
  unfold addPath
  cases hc : acc.contains q with
  | true =>
    have hq : q ∈ acc := List.elem_iff.mp hc
    simp only [hc, if_true]
    exact ⟨Or.inl, fun hpq => hpq.elim id (fun he => he ▸ hq)⟩
  | false =>
    simp only [hc, Bool.false_eq_true, if_false, List.mem_append,
      List.mem_singleton]

theorem nodup_addPath {acc : List Str} {q : Str} (h : acc.Nodup) :
    (addPath acc q).Nodup := by
  unfold addPath
  cases hc : acc.contains q with
  | true => simpa [hc]
  | false =>
    have hq : q ∉ acc := fun hm => by
      have ht : acc.contains q = true := List.elem_iff.mpr hm
      rw [hc] at ht
      cases ht
    simp [hc, List.nodup_append, h, hq]

theorem nodup_foldl_addPath (refs : List ImageReference) :
    ∀ acc : List Str, acc.Nodup →
      (refs.foldl (fun acc r => addPath acc r.path) acc).Nodup := by
  induction refs with
  | nil => intro acc h; exact h
  | cons r rest ih =>
    intro acc h
    exact ih (addPath acc r.path) (nodup_addPath h)

theorem mem_foldl_addPath (refs : List ImageReference) :
    ∀ (acc : List Str) (p : Str),
      p ∈ refs.foldl (fun acc r => addPath acc r.path) acc ↔
        p ∈ acc ∨ p ∈ refs.map ImageReference.path := by
  induction refs with
  | nil => intro acc p; simp
  | cons r rest ih =>
    intro acc p
    rw [List.foldl_cons, ih, mem_addPath]
    simp [or_assoc, or_comm, or_left_comm]

theorem collectPaths_nodup (refs : List ImageReference)
    (fi : Option Str) : (collectPaths refs fi).Nodup := by
  unfold collectPaths
  have hbase := nodup_foldl_addPath refs [] List.nodup_nil
  cases fi with
  | none => exact hbase
  | some f =>
    by_cases h : !f.isEmpty && isLocalPath f
    · simpa [h] using nodup_addPath hbase
    · simpa [h] using hbase

theorem mem_collectPaths (refs : List ImageReference) (fi : Option Str)
    (p : Str) :
    p ∈ collectPaths refs fi ↔
      (p ∈ refs.map ImageReference.path ∨
        ∃ f, fi = some f ∧ p = f ∧ f ≠ [] ∧ isLocalPath f = true) := by
  unfold collectPaths
  cases fi with
  | none => simp [mem_foldl_addPath]
  | some f =>
    by_cases h : !f.isEmpty && isLocalPath f
    · have hf := (Bool.and_eq_true _ _).mp h
      have hne : f ≠ [] := by
        simpa [List.isEmpty_iff] using (Bool.not_eq_true' _).mp hf.1
      simp only [h, if_pos, mem_addPath, mem_foldl_addPath]
      simp [hne, hf.2]
    · simp only [h, if_neg, Bool.not_eq_true]
      rw [mem_foldl_addPath]
      simp only [List.not_mem_nil, false_or]
      constructor
      · exact Or.inl
      · rintro (hm | ⟨g, hg, hpg, hgne, hgl⟩)
        · exact hm
        · exfalso
          apply h
          cases hg
          simp [List.isEmpty_iff, hgne, hgl]

theorem countOcc_eq_zero_of_not_mem {p : Str} :
    ∀ {L : List Str}, p ∉ L → countOcc p L = 0 := by
  intro L
  induction L with
  | nil => intro _; rfl
  | cons q rest ih =>
    intro h
    have hne : q ≠ p := fun he => h (he ▸ List.mem_cons_self q rest)
    have h0 := ih (fun hm => h (List.mem_cons_of_mem q hm))
    simp only [countOcc] at h0 ⊢
    rw [List.filter_cons]
    simp [hne, h0]

theorem countOcc_eq_one_of_nodup_mem {p : Str} :
    ∀ {L : List Str}, L.Nodup → p ∈ L → countOcc p L = 1 := by
  intro L
  induction L with
  | nil => intro _ h; cases h
  | cons q rest ih =>
    intro hnd hm
    have hq : q ∉ rest := (List.nodup_cons.mp hnd).1
    have hrest : rest.Nodup := (List.nodup_cons.mp hnd).2
    cases List.mem_cons.mp hm with
    | inl hpq =>
      subst hpq
      have h0 := countOcc_eq_zero_of_not_mem hq
      simp only [countOcc] at h0 ⊢
      rw [List.filter_cons]
      simp [h0]
    | inr hr =>
      have hne : q ≠ p := fun he => hq (he ▸ hr)
      have h1 := ih hrest hr
      simp only [countOcc] at h1 ⊢
      rw [List.filter_cons]
      simp [hne, h1]

theorem count_collectPaths_of_mem {refs : List ImageReference}
    {fi : Option Str} {p : Str} (h : p ∈ refs.map ImageReference.path) :
    countOcc p (collectPaths refs fi) = 1 :=
  countOcc_eq_one_of_nodup_mem (collectPaths_nodup refs fi)
    ((mem_collectPaths refs fi p).mpr (Or.inl h))

theorem uploadAll_keys (fs : FileStore) (cfg : ImgConfig) (up : Uploader)
    (basePath : Str) :
    ∀ (L : List Str) (m : List (Str × Str)),
      uploadAll fs cfg up basePath L = .ok m → m.map Prod.fst = L := by
  intro L
  induction L with
  | nil => intro m h; cases h; rfl
  | cons p rest ih =>
    intro m h
    unfold uploadAll at h
    cases h1 : uploadStep fs cfg up basePath p with
    | error e => rw [h1] at h; cases h
    | ok url =>
      rw [h1] at h
      cases h2 : uploadAll fs cfg up basePath rest with
      | error e => rw [h2] at h; cases h
      | ok m' =>
        rw [h2] at h
        cases h
        simp [ih m' h2]

theorem uploadAll_error_of_firstFailure (fs : FileStore) (cfg : ImgConfig)
    (up : Uploader) (basePath : Str) :
    ∀ (L : List Str) (e : ImgErr),
      firstFailure fs cfg up basePath L = some e →
        uploadAll fs cfg up basePath L = .error e := by
  intro L
  induction L with
  | nil => intro e h; cases h
  | cons p rest ih =>
    intro e h
    unfold firstFailure at h
    unfold uploadAll
    cases h1 : uploadStep fs cfg up basePath p with
    | error e' =>
      rw [h1] at h
      cases h
      rfl
    | ok url =>
      rw [h1] at h
      rw [ih e h]

theorem firstFailure_isSome_of_mem (fs : FileStore) (cfg : ImgConfig)
    (up : Uploader) (basePath : Str) :
    ∀ (L : List Str) (p : Str), p ∈ L →
      ∀ e, uploadStep fs cfg up basePath p = .error e →
        ∃ e', firstFailure fs cfg up basePath L = some e' := by
  intro L
  induction L with
  | nil => intro p hp; cases hp
  | cons q rest ih =>
    intro p hp e he
    unfold firstFailure
    cases h1 : uploadStep fs cfg up basePath q with
    | error e' => exact ⟨e', rfl⟩
    | ok url =>
      cases List.mem_cons.mp hp with
      | inl hpq =>
        subst hpq
        rw [h1] at he
        cases he
      | inr hrest => exact ih p hrest e he

theorem hexToBytes_length : ∀ s : Str, (hexToBytes s).length = s.length / 2
  | [] => rfl
  | [_] => by simp [hexToBytes]
  | _ :: _ :: rest => by
    simp only [hexToBytes, List.length_cons, hexToBytes_length rest]
    omega

theorem not_nsec_prefix_of_isHex64 {t : Str} (h : isHex64 t = true) :
    startsWith (s2l "nsec1") t = false := by
  cases hs : startsWith (s2l "nsec1") t with
  | false => rfl
  | true =>
    exfalso
    have hpre : s2l "nsec1" <+: t := by
      simpa [startsWith, List.isPrefixOf_iff_prefix] using hs
    obtain ⟨t2, ht⟩ := hpre
    have hall := (Bool.and_eq_true _ _).mp h
    have : t.all hexDigit = true := hall.2
    rw [← ht] at this
    simp [s2l, List.all_cons, hexDigit] at this

theorem isHex64_length {t : Str} (h : isHex64 t = true) : t.length = 64 := by
  have hall := (Bool.and_eq_true _ _).mp h
  simpa using hall.1

theorem parseFmLine_no_colon {fm : PostFrontmatter} {line : Str}
    (h : ':' ∉ line) : parseFmLine fm line = fm := by
  unfold parseFmLine
  have : line.findIdx? (· = ':') = none := by
    rw [List.findIdx?_eq_none_iff]
    intro x hx
    simp only [decide_eq_false_iff_not]
    exact fun he => h (he ▸ hx)
  rw [this]

theorem foldl_parseFmLine_no_colon :
    ∀ (ls : List Str) (fm : PostFrontmatter),
      (∀ line ∈ ls, ':' ∉ line) → ls.foldl parseFmLine fm = fm := by
  intro ls
  induction ls with
  | nil => intro fm _; rfl
  | cons l rest ih =>
    intro fm h
    rw [List.foldl_cons, parseFmLine_no_colon (h l (List.mem_cons_self l rest))]
    exact ih fm (fun line hm => h line (List.mem_cons_of_mem l hm))

/-! ## Claim theorems -/

/-- C10: `isLocalPath` classifies a string as local exactly when it does
not start with the lowercase literal `http://` and does not start with the
lowercase literal `https://`; consequently a path with another scheme
(`ftp://host/x`) or an uppercase scheme spelling (`HTTP://host/x`) is
classified as local, and such a path joins the upload dedup set. -/
theorem c10_isLocalPath_spec :
    (∀ s : Str, isLocalPath s = true ↔
      (startsWith (s2l "http://") s = false ∧
        startsWith (s2l "https://") s = false)) ∧
    isLocalPath (s2l "ftp://host/x") = true ∧
    isLocalPath (s2l "HTTP://host/x") = true ∧
    collectPaths (parseImageReferences (s2l "![a](ftp://host/x)")) none =
      [s2l "ftp://host/x"] := by
  refine ⟨fun s => ?_, by decide, by decide, by decide⟩
  unfold isLocalPath
  cases h1 : startsWith (s2l "http://") s <;>
    cases h2 : startsWith (s2l "https://") s <;> simp

/-- C6: the scan extracts exactly the markdown-image and HTML-image
matches whose path is local (the remote ones are dropped, nothing else is
filtered), and content with one local markdown image and one remote
HTTPS image yields exactly one `ImageReference`, pointing at the local
path. -/
theorem c6_parseImageReferences_local_only :
    (∀ c : Str, parseImageReferences c =
      (scanMdAll c ++ scanHtmlAll c).filter (fun r => isLocalPath r.path)) ∧
    (∀ (c : Str) (r : ImageReference), r ∈ parseImageReferences c →
      isLocalPath r.path = true) ∧
    parseImageReferences
        (s2l "![a](./local.png) and ![b](https://example.com/img.png)") =
      [⟨s2l "![a](./local.png)", s2l "./local.png"⟩] := by
  refine ⟨parseImageReferences_eq_filter, ?_, by decide⟩
  intro c r hm
  rw [parseImageReferences_eq_filter] at hm
  exact (List.mem_filter.mp hm).2

/-- C6 witness: the single reference extracted from mixed local/remote
content indeed has a local path. -/
theorem c6_parseImageReferences_local_only_witness :
    isLocalPath (s2l "./local.png") = true :=
  c6_parseImageReferences_local_only.2.1
    (s2l "![a](./local.png) and ![b](https://example.com/img.png)")
    ⟨s2l "![a](./local.png)", s2l "./local.png"⟩ (by decide)

/-- C8 counterexample: the input `---\n\n\n---\nbody` has a present
delimiter block containing no key-value lines (one blank line), yet
`parseFrontmatter` returns only the body as content, not the entire
original input. -/
theorem c8_counterexample :
    parseFrontmatter (s2l "---\n\n\n---\nbody") = ({}, s2l "body") ∧
    s2l "body" ≠ s2l "---\n\n\n---\nbody" := by decide

/-- C8 (amended): when the delimiter regex does not match, or the
captured block is the empty string, `parseFrontmatter` returns no
frontmatter and the entire original input; when the captured block is
non-empty but contains no key-value (colon) line, it returns no
frontmatter and the trimmed body only. -/
theorem c8_parseFrontmatter_empty_block (md : Str) :
    (fmMatch md = none → parseFrontmatter md = ({}, md)) ∧
    (∀ c, fmMatch md = some ([], c) → parseFrontmatter md = ({}, md)) ∧
    (∀ b c, fmMatch md = some (b, c) → b ≠ [] →
      (∀ line ∈ splitChar '\n' b, ':' ∉ line) →
      parseFrontmatter md = ({}, trim c)) := by
  refine ⟨?_, ?_, ?_⟩
  · intro h
    unfold parseFrontmatter
    rw [h]
  · intro c h
    unfold parseFrontmatter
    rw [h]
    simp
  · intro b c h hb hnc
    unfold parseFrontmatter
    rw [h]
    have hbe : b.isEmpty = false := by
      cases b with
      | nil => cases hb rfl
      | cons x xs => rfl
    simp only [hbe, Bool.false_eq_true, if_false]
    rw [foldl_parseFmLine_no_colon (splitChar '\n' b) {} hnc]

/-- C8 witness: an input whose captured block is the empty string is
returned whole. -/
theorem c8_parseFrontmatter_empty_block_witness :
    parseFrontmatter (s2l "---\n\n---\nContent") =
      ({}, s2l "---\n\n---\nContent") :=
  (c8_parseFrontmatter_empty_block (s2l "---\n\n---\nContent")).2.1
    (s2l "Content") (by decide)

/-- C4 counterexample: `nsec1III` is a string of the wrong character set
(no bech32 data part), yet `parseSecretKey` does not fail with
`InvalidSecretKeyError`: the external nip19 codec's own exception
propagates uncaught (the codec cannot raise the CLI's error class). -/
theorem c4_counterexample :
    parseSecretKey nip19Reject (s2l "nsec1III") =
      .error (.nip19DecodeErr (s2l "invalid bech32")) ∧
    SecretKeyErr.nip19DecodeErr (s2l "invalid bech32") ≠
      SecretKeyErr.invalidSecretKey := by decide

/-- C4 (amended): after trimming, a 64-character hex string decodes to
exactly 32 bytes; an `nsec1`-prefixed string that the external codec
decodes with the `nsec` tag yields the codec's payload, and with any
other tag fails with `InvalidSecretKey`; a string that is neither
`nsec1`-prefixed nor 64-hex fails with `InvalidSecretKey`; but an
`nsec1`-prefixed string rejected by the external codec fails with the
codec's own error, not `InvalidSecretKey`. -/
theorem c4_parseSecretKey_spec (d : Nip19Decode) (input : Str) :
    (isHex64 (trim input) = true →
      parseSecretKey d input = .ok (hexToBytes (trim input)) ∧
      (hexToBytes (trim input)).length = 32) ∧
    (startsWith (s2l "nsec1") (trim input) = true →
      (∀ dec, d (trim input) = .ok dec → dec.typ = s2l "nsec" →
        parseSecretKey d input = .ok dec.data) ∧
      (∀ dec, d (trim input) = .ok dec → dec.typ ≠ s2l "nsec" →
        parseSecretKey d input = .error .invalidSecretKey) ∧
      (∀ e, d (trim input) = .error e →
        parseSecretKey d input = .error (.nip19DecodeErr e))) ∧
    (startsWith (s2l "nsec1") (trim input) = false →
      isHex64 (trim input) = false →
      parseSecretKey d input = .error .invalidSecretKey) := by
  refine ⟨?_, ?_, ?_⟩
  · intro hhex
    have hns := not_nsec_prefix_of_isHex64 hhex
    constructor
    · simp [parseSecretKey, hns, hhex]
    · rw [hexToBytes_length, isHex64_length hhex]
  · intro hns
    refine ⟨?_, ?_, ?_⟩
    · intro dec hd htyp
      simp [parseSecretKey, hns, hd, htyp]
    · intro dec hd htyp
      simp [parseSecretKey, hns, hd, htyp]
    · intro e hd
      simp [parseSecretKey, hns, hd]
  · intro hns hhex
    simp [parseSecretKey, hns, hhex]

/-- C4 witness: a concrete 64-character hex key decodes to 32 bytes. -/
theorem c4_parseSecretKey_spec_witness :
    parseSecretKey nip19Reject
        (s2l "0123456789abcdef0123456789abcdef0123456789abcdef0123456789abcdef") =
      .ok (hexToBytes (trim
        (s2l "0123456789abcdef0123456789abcdef0123456789abcdef0123456789abcdef"))) ∧
    (hexToBytes (trim
      (s2l "0123456789abcdef0123456789abcdef0123456789abcdef0123456789abcdef"))).length
      = 32 :=
  (c4_parseSecretKey_spec nip19Reject
    (s2l "0123456789abcdef0123456789abcdef0123456789abcdef0123456789abcdef")).1
    (by decide)

/-- C5: `getSecretKey` fails with `KeyfileNotFound` when the keyfile does
not exist; with `InvalidKeyfileError` when the file's leading prefix is
not `ncryptsec1` — regardless of the prompt and of the decryption
collaborator, i.e. before any decryption attempt; with `DecryptionError`
when decryption with the supplied non-empty password fails; and a
cancelled prompt surfaces as `AbortedError` for every decryption
collaborator — never wrapped as `DecryptionError`. -/
theorem c5_getSecretKey_errors (env : VaultEnv) (path : Str) :
    (env.fileExists = false →
      getSecretKey env path = .error (.keyfileNotFound path)) ∧
    (env.fileExists = true →
      startsWith (s2l "ncryptsec1") env.fileText = false →
      ∀ pr d,
        getSecretKey { env with promptResult := pr, decryptResult := d }
          path = .error .invalidKeyfile) ∧
    (∀ pw, env.fileExists = true →
      startsWith (s2l "ncryptsec1") env.fileText = true →
      env.promptResult = some pw → pw ≠ [] →
      env.decryptResult (trim env.fileText) pw = none →
      getSecretKey env path = .error .decryptionFailed) ∧
    (env.fileExists = true →
      startsWith (s2l "ncryptsec1") env.fileText = true →
      env.promptResult = none →
      ∀ d, getSecretKey { env with decryptResult := d } path =
        .error .aborted) := by
  refine ⟨?_, ?_, ?_, ?_⟩
  · intro h
    simp [getSecretKey, h]
  · intro h1 h2 pr d
    simp [getSecretKey, h1, h2]
  · intro pw h1 h2 h3 h4 h5
    have hpe : pw.isEmpty = false := by
      cases pw with
      | nil => cases h4 rfl
      | cons x xs => rfl
    simp [getSecretKey, h1, h2, h3, hpe, h5]
  · intro h1 h2 h3 d
    simp [getSecretKey, h1, h2, h3]

/-- C5 witness: a vault with an intact keyfile and a cancelled prompt
aborts. -/
theorem c5_getSecretKey_errors_witness :
    getSecretKey vaultCancelled (s2l "k") = .error .aborted :=
  (c5_getSecretKey_errors vaultCancelled (s2l "k")).2.2.2 rfl (by decide)
    rfl vaultCancelled.decryptResult

/-- C9: when the keyfile exists with the correct prefix and the password
prompt returns the empty string, `getSecretKey` fails with `AbortedError`
exactly as for a cancelled prompt, for every decryption collaborator —
so no decryption is ever attempted with an empty password. -/
theorem c9_empty_password_aborts (env : VaultEnv) (path : Str)
    (h1 : env.fileExists = true)
    (h2 : startsWith (s2l "ncryptsec1") env.fileText = true)
    (h3 : env.promptResult = some []) :
    ∀ d, getSecretKey { env with decryptResult := d } path =
      .error .aborted := by
  intro d
  simp [getSecretKey, h1, h2, h3]

/-- C9 witness: the empty-password vault aborts. -/
theorem c9_empty_password_aborts_witness :
    getSecretKey vaultEmptyPw (s2l "k") = .error .aborted :=
  c9_empty_password_aborts vaultEmptyPw (s2l "k") rfl (by decide) rfl
    vaultEmptyPw.decryptResult

/-- C7: the create validation names every missing required field — each
of `slug`, `title`, `author` is listed exactly when it is falsy — the
operation fails with `ValidationError` carrying that full list whenever
it is non-empty, and it passes validation exactly when all three are
truthy (for a string value: present and non-empty). -/
theorem c7_create_validation :
    (∀ fm : PostFrontmatter,
      (s2l "slug" ∈ missingFields fm ↔ truthy fm.slug = false) ∧
      (s2l "title" ∈ missingFields fm ↔ truthy fm.title = false) ∧
      (s2l "author" ∈ missingFields fm ↔ truthy fm.author = false) ∧
      (missingFields fm = [] ↔
        (truthy fm.slug = true ∧ truthy fm.title = true ∧
          truthy fm.author = true))) ∧
    (∀ (fs : FileStore) (cfg : ImgConfig) (up : Uploader)
        (filePath markdown : Str),
      (missingFields (parseFrontmatter markdown).1 ≠ [] →
        createPostPayload fs cfg up filePath markdown =
          .error (.validation (missingFields (parseFrontmatter markdown).1))) ∧
      (missingFields (parseFrontmatter markdown).1 = [] →
        ∀ l, createPostPayload fs cfg up filePath markdown ≠
          .error (.validation l))) ∧
    (∀ v : Str, truthy (some (.s v)) = true ↔ v ≠ []) := by
  refine ⟨?_, ?_, ?_⟩
  · intro fm
    cases h1 : truthy fm.slug <;> cases h2 : truthy fm.title <;>
      cases h3 : truthy fm.author <;>
        simp [missingFields, h1, h2, h3, s2l]
  · intro fs cfg up filePath markdown
    constructor
    · intro hne
      have hie : (missingFields (parseFrontmatter markdown).1).isEmpty
          = false := by
        cases hmf : missingFields (parseFrontmatter markdown).1 with
        | nil => cases hne hmf
        | cons x xs => rfl
      simp [createPostPayload, hie]
    · intro hmf l
      have hie : (missingFields (parseFrontmatter markdown).1).isEmpty
          = true := by rw [hmf]; rfl
      simp only [createPostPayload, hie, Bool.not_true,
        Bool.false_eq_true, if_false]
      cases hp : processImages fs cfg up (parseFrontmatter markdown).2
          (fmStr? (parseFrontmatter markdown).1.featured_image)
          (getBasePath filePath) with
      | error e => simp [hp]
      | ok r => simp [hp]
  · intro v
    cases v <;> simp [truthy]

/-- C7 witness: a file supplying only `slug` fails validation naming both
`title` and `author`. -/
theorem c7_create_validation_witness :
    createPostPayload fsAll defaultImgConfig upCdn (s2l "f.md")
        (s2l "---\nslug: s\n---\nbody") =
      .error (.validation
        (missingFields (parseFrontmatter (s2l "---\nslug: s\n---\nbody")).1)) ∧
    missingFields (parseFrontmatter (s2l "---\nslug: s\n---\nbody")).1 =
      [s2l "title", s2l "author"] :=
  ⟨(c7_create_validation.2.1 fsAll defaultImgConfig upCdn (s2l "f.md")
      (s2l "---\nslug: s\n---\nbody")).1 (by decide), by decide⟩

/-- C2: any validation or upload failure on the dedup path list makes
`processImages` fail with the first such error and return no result; and
a successful result's content is the rewrite computed from the fully
completed upload map — all validations and uploads precede any
substitution. -/
theorem c2_processImages_fail_fast (fs : FileStore) (cfg : ImgConfig)
    (up : Uploader) (content : Str) (fi : Option Str) (basePath : Str) :
    (∀ e, firstFailure fs cfg up basePath
        (collectPaths (parseImageReferences content) fi) = some e →
      processImages fs cfg up content fi basePath = .error e) ∧
    (∀ p, p ∈ collectPaths (parseImageReferences content) fi →
      ∀ e, uploadStep fs cfg up basePath p = .error e →
        ∃ e', processImages fs cfg up content fi basePath = .error e') ∧
    (∀ r, processImages fs cfg up content fi basePath = .ok r →
      (collectPaths (parseImageReferences content) fi = [] ∧
        r = (content, fi)) ∨
      (∃ m, uploadAll fs cfg up basePath
          (collectPaths (parseImageReferences content) fi) = .ok m ∧
        r.1 = rewriteContent m (parseImageReferences content) content)) := by
  have part1 : ∀ e, firstFailure fs cfg up basePath
      (collectPaths (parseImageReferences content) fi) = some e →
      processImages fs cfg up content fi basePath = .error e := by
    intro e h
    have hua := uploadAll_error_of_firstFailure fs cfg up basePath _ e h
    cases hp : collectPaths (parseImageReferences content) fi with
    | nil =>
      rw [hp] at h
      cases h
    | cons q rest =>
      rw [hp] at hua
      simp only [processImages, hp, List.isEmpty_cons, Bool.false_eq_true,
        if_false, hua]
  refine ⟨part1, ?_, ?_⟩
  · intro p hp e he
    obtain ⟨e', hff⟩ :=
      firstFailure_isSome_of_mem fs cfg up basePath _ p hp e he
    exact ⟨e', part1 e' hff⟩
  · intro r hr
    cases hp : collectPaths (parseImageReferences content) fi with
    | nil =>
      left
      refine ⟨rfl, ?_⟩
      simp only [processImages, hp, List.isEmpty_nil, if_true] at hr
      exact (Except.ok.injEq _ _).mp hr |>.symm
    | cons q rest =>
      right
      simp only [processImages, hp, List.isEmpty_cons, Bool.false_eq_true,
        if_false] at hr
      cases hu : uploadAll fs cfg up basePath (q :: rest) with
      | error e =>
        rw [hu] at hr
        cases hr
      | ok m =>
        rw [hu] at hr
        refine ⟨m, rfl, ?_⟩
        have hre := (Except.ok.injEq _ _).mp hr
        rw [← hre]

/-- C2 witness: a missing image file aborts `processImages` with the
validation error. -/
theorem c2_processImages_fail_fast_witness :
    processImages fsMissing defaultImgConfig upCdn
        (s2l "hi ![a](./x.png)") none (s2l ".") =
      .error (.notFound (s2l "././x.png")) :=
  (c2_processImages_fail_fast fsMissing defaultImgConfig upCdn
    (s2l "hi ![a](./x.png)") none (s2l ".")).1
    (.notFound (s2l "././x.png")) (by decide)

/-- C3 counterexample: for content `![./x.png](./x.png)` — a single
reference whose path also occurs in the alt text — the rewritten span
substitutes the URL for the first path occurrence, which is the alt
text, so the returned span's link target still carries the local path,
not the uploaded URL. -/
theorem c3_counterexample :
    processImages fsAll defaultImgConfig upCdn (s2l "![./x.png](./x.png)")
        none (s2l ".") =
      .ok (s2l "![https://cdn/x.png](./x.png)", none) ∧
    s2l "![https://cdn/x.png](./x.png)" ≠
      s2l "![./x.png](https://cdn/x.png)" := by decide

/-- C3 (amended): the dedup list contains each referenced local path
exactly once (the featured image joins the same set, so no second
upload), the upload loop performs exactly one upload per dedup entry,
and each matched span has the first occurrence of its path replaced by
the uploaded URL — which points all N spans at the same URL whenever the
path occurs in each span only as the link target, as in the concrete
three-reference scenario. -/
theorem c3_dedup_upload_once :
    (∀ (refs : List ImageReference) (fi : Option Str),
      (collectPaths refs fi).Nodup) ∧
    (∀ (refs : List ImageReference) (fi : Option Str) (p : Str),
      p ∈ collectPaths refs fi ↔
        (p ∈ refs.map ImageReference.path ∨
          ∃ f, fi = some f ∧ p = f ∧ f ≠ [] ∧ isLocalPath f = true)) ∧
    (∀ (refs : List ImageReference) (fi : Option Str) (p : Str),
      p ∈ refs.map ImageReference.path →
        countOcc p (collectPaths refs fi) = 1) ∧
    (∀ (fs : FileStore) (cfg : ImgConfig) (up : Uploader)
        (basePath : Str) (L : List Str) (m : List (Str × Str)),
      uploadAll fs cfg up basePath L = .ok m → m.map Prod.fst = L) ∧
    processImages fsAll defaultImgConfig upCdn
        (s2l "![a](./x.png) and ![b](./x.png) and ![c](./x.png)")
        (some (s2l "./x.png")) (s2l ".") =
      .ok (s2l "![a](https://cdn/x.png) and ![b](https://cdn/x.png) and ![c](https://cdn/x.png)",
        some (s2l "https://cdn/x.png")) :=
  ⟨collectPaths_nodup, mem_collectPaths,
    fun _ _ _ h => count_collectPaths_of_mem h,
    fun fs cfg up basePath => uploadAll_keys fs cfg up basePath,
    by decide⟩

/-- C3 witness: a path referenced twice enters the dedup list exactly
once. -/
theorem c3_dedup_upload_once_witness :
    countOcc (s2l "./x.png")
      (collectPaths
        (parseImageReferences (s2l "![a](./x.png) and ![b](./x.png)"))
        none) = 1 :=
  c3_dedup_upload_once.2.2.1
    (parseImageReferences (s2l "![a](./x.png) and ![b](./x.png)")) none
    (s2l "./x.png") (by decide)

/-- C1: evaluation of the update payload assembly at the failing input.
A file whose body is `A` combined with the CLI override `--content B`
yields a final payload whose content is `A` — the file's processed body
overwrites the CLI value after image processing — even though a CLI
`--title` override does take precedence over the file's title, as shown
by the second conjunct. -/
theorem c1_update_content_overridden_by_file :
    updatePostPayload fsAll defaultImgConfig upCdn
        { file := some (s2l "post.md", s2l "A"),
          content := some (s2l "B") } =
      .ok { content := some (s2l "A") } ∧
    updatePostPayload fsAll defaultImgConfig upCdn
        { file := some (s2l "post.md", s2l "---\ntitle: A\n---\nbody"),
          title := some (s2l "B") } =
      .ok { title := some (.s (s2l "B")), content := some (s2l "body") } ∧
    s2l "A" ≠ s2l "B" := by decide

end My2sats
